import Mathlib

/-!
Verification of the `fixchain` certificate-chain fixer orchestrator
(`fixchain/fixer.go`): the worker pool, the intake channel, the egress
channels for fixed chains and errors, the activity counter, and the
periodic statistics reporter.

Certificates are opaque in everything the orchestrator does, so they are
embedded as bare identities.  Go channels are embedded with their
operational semantics (unbuffered rendezvous, panic on send-to-closed and
close-of-closed).  The concurrent execution of the pool is embedded as a
small-step transition relation over a system state.
-/

/-- Opaque parsed X.509 certificate; the fixer never inspects it, so only
its identity matters. -/
abbrev Cert := Nat

/-- Modelled from the spec: a certificate pool.  `allocId` identifies the
allocation (`x509.NewCertPool()` returns a fresh pool), `certs` the
certificates it holds, in insertion order. -/
structure CertPool where
  allocId : Nat
  certs : List Cert
deriving DecidableEq, Repr

/-- Modelled from the spec: `x509.NewCertPool()` creates a fresh empty pool
with a new allocation identity. -/
def newCertPool (alloc : Nat) : CertPool :=
  { allocId := alloc, certs := [] }

/-- Modelled from the spec: `CertPool.AddCert` adds a certificate to the
pool only if it is not already present, preserving the no-duplicate
invariant of pools. -/
def CertPool.addCert (p : CertPool) (c : Cert) : CertPool :=
  if p.certs.contains c then p else { p with certs := p.certs ++ [c] }

/-- Modelled from the spec: a deduped chain is an ordered, duplicate-free
sequence of certificates presented as intermediates for a leaf. -/
structure DedupedChain where
  certs : List Cert
deriving DecidableEq, Repr

/-- Extended key usages as far as the fixer mentions them:
`x509.ExtKeyUsageAny` plus the other usages, which it never constructs. -/
inductive ExtKeyUsage where
  | extKeyUsageAny : ExtKeyUsage
  | otherUsage : Nat → ExtKeyUsage
deriving DecidableEq, Repr

/-- Verification options as built by `QueueChain` (the fields of
`x509.VerifyOptions` that `fixer.go` sets). -/
structure VerifyOptions where
  intermediates : CertPool
  roots : CertPool
  disableTimeChecks : Bool
  keyUsages : List ExtKeyUsage
deriving DecidableEq, Repr

/-- The unit of work placed on the intake channel (`toFix` in the source):
one leaf certificate, one candidate chain and the verification options
built for it.  The back-reference to the fixer carries no data relevant
here. -/
structure ToFix where
  cert : Cert
  chain : DedupedChain
  opts : VerifyOptions
deriving DecidableEq, Repr

/-- Embedding of the task construction in `Fixer.QueueChain`
(fixer.go:37-48): a fresh intermediates pool (allocation id `alloc`) is
filled with the certificates of `d` via `AddCert`, the caller's `roots`
pool is stored as-is, `DisableTimeChecks` is set and the key usages are
exactly `[ExtKeyUsageAny]`. -/
def queueChainTask (alloc : Nat) (cert : Cert) (d : DedupedChain)
    (roots : CertPool) : ToFix :=
  { cert := cert
    chain := d
    opts :=
      { intermediates := d.certs.foldl CertPool.addCert (newCertPool alloc)
        roots := roots
        disableTimeChecks := true
        keyUsages := [ExtKeyUsage.extKeyUsageAny] } }

/-- A Go channel value: capacity, buffered contents, closed flag. -/
structure GoChan (α : Type) where
  capacity : Nat
  buffer : List α
  closed : Bool
deriving DecidableEq, Repr

/-- Outcome of one attempted channel send. -/
inductive SendResult (α : Type) where
  | panicked : String → SendResult α
  | buffered : GoChan α → SendResult α
  | handedToReceiver : SendResult α
  | blockedNoReceiver : SendResult α
deriving DecidableEq, Repr

/-- Go channel send semantics: sending on a closed channel panics;
otherwise the value is buffered if there is room, handed directly to a
waiting receiver on a full or unbuffered channel, and blocks when neither
is possible. -/
def GoChan.send (c : GoChan α) (x : α) (receiverWaiting : Bool) :
    SendResult α :=
  if c.closed then SendResult.panicked "send on closed channel"
  else if c.buffer.length < c.capacity then
    SendResult.buffered { c with buffer := c.buffer ++ [x] }
  else if receiverWaiting then SendResult.handedToReceiver
  else SendResult.blockedNoReceiver

/-- Go channel close semantics: closing a closed channel panics. -/
def GoChan.closeChan (c : GoChan α) : Except String (GoChan α) :=
  if c.closed then Except.error "close of closed channel"
  else Except.ok { c with closed := true }

/-- The pool size hard-coded in `Fixer.newFixServerPool`
(`for i := 0; i < 100; i++`). -/
def poolWorkerCount : Nat := 100

/-- A worker goroutine, identified by the channel it receives tasks
from. -/
structure Worker where
  sourceChan : Nat
deriving DecidableEq, Repr

/-- Embedding of `Fixer.newFixServerPool` (fixer.go:74-79): starts
`poolWorkerCount` copies of `fixServer`, all reading the fixer's single
`toFix` channel. -/
def newFixServerPool (toFixChanId : Nat) : List Worker :=
  (List.range poolWorkerCount).map (fun _ => { sourceChan := toFixChanId })

/-- The channel-level view of a `Fixer` as built by `NewFixer`: the intake
channel with its identity, the started workers, and the identities of the
caller-supplied egress channels. -/
structure FixerView where
  toFix : GoChan ToFix
  toFixChanId : Nat
  workers : List Worker
  chainsChanId : Nat
  errorsChanId : Nat
deriving DecidableEq, Repr

/-- Embedding of `NewFixer` (fixer.go:97-109): `make(chan *toFix)` creates
an unbuffered (capacity-0) open channel with identity `freshChanId`, the
caller's `chains` and `errors` channels are stored, and the worker pool is
started on the intake channel. -/
def NewFixer (chainsChanId errorsChanId freshChanId : Nat) : FixerView :=
  { toFix := { capacity := 0, buffer := [], closed := false }
    toFixChanId := freshChanId
    workers := newFixServerPool freshChanId
    chainsChanId := chainsChanId
    errorsChanId := errorsChanId }

/-- Embedding of the send `f.toFix <- &toFix{...}` performed by
`Fixer.QueueChain` (fixer.go:48). -/
def QueueChainSend (f : FixerView) (t : ToFix) (receiverWaiting : Bool) :
    SendResult ToFix :=
  f.toFix.send t receiverWaiting

/-- Embedding of `Fixer.Wait` (fixer.go:52-55): `close(f.toFix)` — which
panics if the channel is already closed — followed by `f.wg.Wait()`, which
does not change the channel state. -/
def FixerWait (f : FixerView) : Except String FixerView :=
  match f.toFix.closeChan with
  | Except.error e => Except.error e
  | Except.ok c => Except.ok { f with toFix := c }

/-- A `FixError` record as produced by the fix algorithm; the orchestrator
treats it opaquely, only routing it to the errors channel. -/
structure FixError where
  tag : Nat
deriving DecidableEq, Repr

/-- The state of the two egress streams seen by one worker: everything it
has sent to the `chains` channel and to the `errors` channel, in order. -/
structure Egress where
  chains : List (List Cert)
  errors : List FixError
deriving DecidableEq, Repr

/-- One iteration of the `fixServer` worker loop body (fixer.go:61-70):
run `handleChain` on the dequeued task; if it returned a `FixError`, send
that error to the errors channel (discarding any chains); otherwise send
every returned chain to the chains channel. -/
def fixServerBody (handleChain : ToFix → List (List Cert) × Option FixError)
    (st : Egress) (t : ToFix) : Egress :=
  match handleChain t with
  | (_, some ferr) => { st with errors := st.errors ++ [ferr] }
  | (cs, none) => { st with chains := st.chains ++ cs }

/-- The `fixServer` receive loop (fixer.go:60-71): process the dequeued
tasks one after another; the loop body never exits early. -/
def fixServerLoop (handleChain : ToFix → List (List Cert) × Option FixError)
    (st : Egress) : List ToFix → Egress
  | [] => st
  | t :: ts => fixServerLoop handleChain (fixServerBody handleChain st t) ts

lemma addCert_allocId (p : CertPool) (c : Cert) :
    (p.addCert c).allocId = p.allocId := by
  unfold CertPool.addCert
  split <;> rfl

lemma foldl_addCert_allocId (l : List Cert) (p : CertPool) :
    (l.foldl CertPool.addCert p).allocId = p.allocId := by
  induction l generalizing p with
  | nil => rfl
  | cons c l ih => simp [List.foldl_cons, ih, addCert_allocId]

lemma foldl_addCert_certs (l : List Cert) (p : CertPool)
    (hdisj : ∀ c ∈ l, c ∉ p.certs) (hnd : l.Nodup) :
    (l.foldl CertPool.addCert p).certs = p.certs ++ l := by
  induction l generalizing p with
  | nil => simp
  | cons c l ih =>
    have hc : c ∉ p.certs := hdisj c (List.mem_cons_self c l)
    have hstep : p.addCert c = { p with certs := p.certs ++ [c] } := by
      unfold CertPool.addCert
      simp [List.elem_eq_mem, hc]
    have hnd' : l.Nodup := (List.nodup_cons.mp hnd).2
    have hcl : c ∉ l := (List.nodup_cons.mp hnd).1
    have hdisj' : ∀ x ∈ l, x ∉ (p.addCert c).certs := by
      intro x hx
      rw [hstep]
      simp only [List.mem_append, List.mem_singleton]
      rintro (hxp | rfl)
      · exact hdisj x (List.mem_cons_of_mem c hx) hxp
      · exact hcl hx
    calc ((c :: l).foldl CertPool.addCert p).certs
        = (l.foldl CertPool.addCert (p.addCert c)).certs := by
          simp [List.foldl_cons]
      _ = (p.addCert c).certs ++ l := ih (p.addCert c) hdisj' hnd'
      _ = p.certs ++ c :: l := by rw [hstep]; simp

/-- C4: every `QueueChain(cert, d, roots)` call builds its task's
verification options as: a freshly allocated intermediates pool holding
exactly the certificates of `d` in order, the caller's `roots` pool
unmodified, `DisableTimeChecks = true` and key usages exactly
`[ExtKeyUsageAny]`; the intermediates pool carries the fresh allocation
identity of that one call, so pools from calls with distinct allocations
are never the same pool. -/
theorem queueChain_builds_fresh_options (alloc : Nat) (cert : Cert)
    (d : DedupedChain) (roots : CertPool) (hnd : d.certs.Nodup) :
    (queueChainTask alloc cert d roots).opts.intermediates.certs = d.certs ∧
    (queueChainTask alloc cert d roots).opts.intermediates.allocId = alloc ∧
    (queueChainTask alloc cert d roots).opts.roots = roots ∧
    (queueChainTask alloc cert d roots).opts.disableTimeChecks = true ∧
    (queueChainTask alloc cert d roots).opts.keyUsages
      = [ExtKeyUsage.extKeyUsageAny] ∧
    (∀ alloc2 cert2 d2 roots2, alloc2 ≠ alloc →
      (queueChainTask alloc2 cert2 d2 roots2).opts.intermediates.allocId
        ≠ (queueChainTask alloc cert d roots).opts.intermediates.allocId) := by
  refine ⟨?_, ?_, rfl, rfl, rfl, ?_⟩
  · show (d.certs.foldl CertPool.addCert (newCertPool alloc)).certs = d.certs
    rw [foldl_addCert_certs d.certs (newCertPool alloc) (by intro c _; simp [newCertPool]) hnd]
    rfl
  · exact foldl_addCert_allocId d.certs (newCertPool alloc)
  · intro alloc2 cert2 d2 roots2 hne
    show (d2.certs.foldl CertPool.addCert (newCertPool alloc2)).allocId
        ≠ (d.certs.foldl CertPool.addCert (newCertPool alloc)).allocId
    rw [foldl_addCert_allocId, foldl_addCert_allocId]
    exact hne

/-- Witness for C4 at a concrete duplicate-free chain. -/
theorem queueChain_builds_fresh_options_witness :
    (queueChainTask 7 1 ⟨[2, 3, 4]⟩ ⟨9, [5]⟩).opts.intermediates.certs
        = [2, 3, 4] ∧
    (queueChainTask 7 1 ⟨[2, 3, 4]⟩ ⟨9, [5]⟩).opts.intermediates.allocId = 7 := by
  have h := queueChain_builds_fresh_options 7 1 ⟨[2, 3, 4]⟩ ⟨9, [5]⟩ (by decide)
  exact ⟨h.1, h.2.1⟩

/-- C6: `NewFixer` starts a pool of exactly 100 worker routines, each
reading from the fixer's single intake channel. -/
theorem newFixer_starts_100_workers (chainsChanId errorsChanId freshChanId : Nat) :
    (NewFixer chainsChanId errorsChanId freshChanId).workers
      = List.replicate 100
          { sourceChan := (NewFixer chainsChanId errorsChanId freshChanId).toFixChanId } ∧
    (NewFixer chainsChanId errorsChanId freshChanId).workers.length = 100 := by
  constructor
  · show newFixServerPool freshChanId = List.replicate 100 { sourceChan := freshChanId }
    unfold newFixServerPool poolWorkerCount
    simp [List.map_const]
  · show (newFixServerPool freshChanId).length = 100
    unfold newFixServerPool poolWorkerCount
    simp

/-- C1: for every dequeued task, exactly one outcome is routed to exactly
one egress: when `handleChain` returns a `FixError` the error goes to the
errors channel and no chain of that task is emitted; otherwise every
returned chain goes to the chains channel and no error is emitted; and in
both cases the worker loop continues with the remaining tasks. -/
theorem fixServer_routes_one_outcome
    (handleChain : ToFix → List (List Cert) × Option FixError)
    (st : Egress) (t : ToFix) (ts : List ToFix) :
    (∀ cs e, handleChain t = (cs, some e) →
      fixServerBody handleChain st t
        = { chains := st.chains, errors := st.errors ++ [e] }) ∧
    (∀ cs, handleChain t = (cs, none) →
      fixServerBody handleChain st t
        = { chains := st.chains ++ cs, errors := st.errors }) ∧
    fixServerLoop handleChain st (t :: ts)
      = fixServerLoop handleChain (fixServerBody handleChain st t) ts := by
  refine ⟨?_, ?_, rfl⟩
  · intro cs e h
    unfold fixServerBody
    rw [h]
  · intro cs h
    unfold fixServerBody
    rw [h]

/-- Witness for C1: a concrete `handleChain` with one failing and one
succeeding task, routed to the two egresses. -/
theorem fixServer_routes_one_outcome_witness :
    (fixServerBody (fun t => if t.cert = 0 then ([], some ⟨5⟩) else ([[1, 2]], none))
        ⟨[], []⟩ (queueChainTask 0 0 ⟨[]⟩ ⟨0, []⟩)
      = { chains := [], errors := [⟨5⟩] }) ∧
    (fixServerBody (fun t => if t.cert = 0 then ([], some ⟨5⟩) else ([[1, 2]], none))
        ⟨[], []⟩ (queueChainTask 0 3 ⟨[]⟩ ⟨0, []⟩)
      = { chains := [[1, 2]], errors := [] }) := by
  constructor
  · exact (fixServer_routes_one_outcome
      (fun t => if t.cert = 0 then ([], some ⟨5⟩) else ([[1, 2]], none))
      ⟨[], []⟩ (queueChainTask 0 0 ⟨[]⟩ ⟨0, []⟩) []).1 [] ⟨5⟩ (by decide)
  · exact ((fixServer_routes_one_outcome
      (fun t => if t.cert = 0 then ([], some ⟨5⟩) else ([[1, 2]], none))
      ⟨[], []⟩ (queueChainTask 0 3 ⟨[]⟩ ⟨0, []⟩) []).2).1 [[1, 2]] (by decide)

/-- A concrete task used in the channel-level counterexamples. -/
def sampleTask : ToFix := queueChainTask 0 1 ⟨[2]⟩ ⟨9, [5]⟩

/-- The fixer obtained by calling `Wait` once on a freshly constructed
fixer: its intake channel is closed. -/
def fixerAfterWait : FixerView :=
  { NewFixer 0 1 2 with toFix := { capacity := 0, buffer := [], closed := true } }

/-- C5 counterexample: the intake queue of a fresh fixer is an unbuffered
channel (capacity 0), and a `QueueChain` send with no worker ready to
receive blocks; the claim that `QueueChain` never blocks waiting for a
worker to dequeue is false. -/
theorem intake_queue_send_blocks_counterexample :
    (NewFixer 0 1 2).toFix.capacity = 0 ∧
    QueueChainSend (NewFixer 0 1 2) sampleTask false
      = SendResult.blockedNoReceiver := by
  constructor
  · rfl
  · rfl

/-- C5 amended: the intake queue is a bounded (in fact unbuffered,
capacity-0) channel: a `QueueChain` send on an open fixer blocks exactly
until a worker is ready to receive, and is handed straight to a waiting
worker. -/
theorem intake_queue_is_unbuffered (chainsChanId errorsChanId freshChanId : Nat)
    (t : ToFix) :
    (NewFixer chainsChanId errorsChanId freshChanId).toFix.capacity = 0 ∧
    QueueChainSend (NewFixer chainsChanId errorsChanId freshChanId) t false
      = SendResult.blockedNoReceiver ∧
    QueueChainSend (NewFixer chainsChanId errorsChanId freshChanId) t true
      = SendResult.handedToReceiver := by
  exact ⟨rfl, rfl, rfl⟩

/-- C3 counterexample: calling `QueueChain` after `Wait` has closed the
intake channel panics with "send on closed channel" — it does not fail
with a "closed" error instead of panicking. -/
theorem queueChain_after_wait_panics_counterexample :
    FixerWait (NewFixer 0 1 2) = Except.ok fixerAfterWait ∧
    QueueChainSend fixerAfterWait sampleTask true
      = SendResult.panicked "send on closed channel" ∧
    QueueChainSend fixerAfterWait sampleTask false
      = SendResult.panicked "send on closed channel" := by
  exact ⟨rfl, rfl, rfl⟩

/-- C3 amended: once the intake channel is closed (which is what `Wait`
does first), any `QueueChain` send panics with "send on closed channel",
whether or not a receiver is waiting. -/
theorem queueChain_after_wait_panics (f : FixerView) (t : ToFix)
    (receiverWaiting : Bool) (hclosed : f.toFix.closed = true) :
    QueueChainSend f t receiverWaiting
      = SendResult.panicked "send on closed channel" := by
  unfold QueueChainSend GoChan.send
  rw [hclosed]
  simp

/-- Witness for the amended C3 at the concrete closed fixer. -/
theorem queueChain_after_wait_panics_witness :
    QueueChainSend fixerAfterWait sampleTask true
      = SendResult.panicked "send on closed channel" :=
  queueChain_after_wait_panics fixerAfterWait sampleTask true rfl

/-- C10: `Wait` is not idempotent: if a first call to `Wait` succeeds,
a second call on the resulting fixer panics with "close of closed
channel", because it closes the already-closed intake channel. -/
theorem wait_twice_panics (f f' : FixerView)
    (hfirst : FixerWait f = Except.ok f') :
    FixerWait f' = Except.error "close of closed channel" := by
  unfold FixerWait GoChan.closeChan at hfirst ⊢
  by_cases h : f.toFix.closed = true
  · simp [h] at hfirst
  · simp [h] at hfirst
    rw [← hfirst]
    simp

/-- Witness for C10: the first `Wait` on a fresh fixer succeeds and the
second panics. -/
theorem wait_twice_panics_witness :
    FixerWait fixerAfterWait = Except.error "close of closed channel" :=
  wait_twice_panics (NewFixer 0 1 2) fixerAfterWait rfl

/-- The modulus of Go's `uint32`, in which the `active` field is
maintained by `atomic.AddUint32` (adding `^uint32(0)` decrements modulo
`2^32`). -/
def maxU32 : Nat := 4294967296

/-- Global state of one `Fixer`'s concurrent execution: the intake queue
contents and closed flag, the number of worker goroutines still running,
the tasks currently being handled (dequeued, result not yet fully
pushed), the `active` counter, everything pushed so far on the two egress
channels, and whether `Wait` has returned. -/
structure Sys where
  queue : List ToFix
  closed : Bool
  workers : Nat
  inFlight : List ToFix
  active : Nat
  chainsOut : List (List Cert)
  errorsOut : List FixError
  waitReturned : Bool

/-- The state right after `NewFixer`: empty open intake queue, 100 running
workers, nothing in flight, `active = 0`, nothing emitted. -/
def initSys : Sys :=
  { queue := [], closed := false, workers := poolWorkerCount, inFlight := []
    active := 0, chainsOut := [], errorsOut := [], waitReturned := false }

/-- Interleaved small-step semantics of the fixer (fixer.go:35-79),
parametrised by the fix algorithm `handleChain`:
caller steps (`enqueue` by `QueueChain`, `waitClose`/`waitReturn` by
`Wait`) and worker steps from `fixServer` (`dequeue` a task and atomically
increment `active`; `finish` a task by pushing its outcome and atomically
decrementing `active`; `workerExit` when the channel is closed and
drained, releasing the `WaitGroup`). -/
inductive Step (handleChain : ToFix → List (List Cert) × Option FixError) :
    Sys → Sys → Prop where
  | enqueue (s : Sys) (t : ToFix) (hopen : s.closed = false) :
      Step handleChain s { s with queue := s.queue ++ [t] }
  | dequeue (s : Sys) (t : ToFix) (rest : List ToFix)
      (hq : s.queue = t :: rest) (hw : s.inFlight.length < s.workers) :
      Step handleChain s
        { s with queue := rest, inFlight := s.inFlight ++ [t]
                 active := (s.active + 1) % maxU32 }
  | finish (s : Sys) (i : Nat) (hi : i < s.inFlight.length) :
      Step handleChain s
        { s with inFlight := s.inFlight.eraseIdx i
                 active := (s.active + (maxU32 - 1)) % maxU32
                 chainsOut := (fixServerBody handleChain
                   ⟨s.chainsOut, s.errorsOut⟩ (s.inFlight.get ⟨i, hi⟩)).chains
                 errorsOut := (fixServerBody handleChain
                   ⟨s.chainsOut, s.errorsOut⟩ (s.inFlight.get ⟨i, hi⟩)).errors }
  | workerExit (s : Sys) (hclosed : s.closed = true) (hq : s.queue = [])
      (hidle : s.inFlight.length < s.workers) :
      Step handleChain s { s with workers := s.workers - 1 }
  | waitClose (s : Sys) (hopen : s.closed = false) :
      Step handleChain s { s with closed := true }
  | waitReturn (s : Sys) (hclosed : s.closed = true) (hw : s.workers = 0) :
      Step handleChain s { s with waitReturned := true }

/-- States reachable from the freshly constructed fixer. -/
def Reachable (handleChain : ToFix → List (List Cert) × Option FixError)
    (s : Sys) : Prop :=
  Relation.ReflTransGen (Step handleChain) initSys s

/-- The execution invariant of the pool: `active` equals the number of
in-flight tasks, in-flight tasks never outnumber running workers, workers
never exceed the pool size, workers only exit after the intake is closed,
`Wait` only returns after close with all workers exited, and a closed
intake with no workers left is drained. -/
def SysInv (s : Sys) : Prop :=
  s.active = s.inFlight.length ∧
  s.inFlight.length ≤ s.workers ∧
  s.workers ≤ poolWorkerCount ∧
  (s.closed = false → s.workers = poolWorkerCount) ∧
  (s.waitReturned = true → s.closed = true ∧ s.workers = 0) ∧
  (s.closed = true → s.workers = 0 → s.queue = [])

lemma inv_init : SysInv initSys := by
  refine ⟨rfl, ?_, ?_, fun _ => rfl, ?_, ?_⟩ <;> simp [initSys]

lemma inv_step (handleChain : ToFix → List (List Cert) × Option FixError)
    {s s' : Sys} (hinv : SysInv s) (hstep : Step handleChain s s') : SysInv s' := by
  obtain ⟨ha, hif, hwle, hopen100, hwr, hcq⟩ := hinv
  have hlen100 : s.inFlight.length ≤ 100 := by
    have h1 := hwle
    unfold poolWorkerCount at h1
    omega
  cases hstep with
  | enqueue t hopen =>
    unfold SysInv
    dsimp only
    refine ⟨ha, hif, hwle, hopen100, hwr, ?_⟩
    intro h
    rw [hopen] at h
    exact Bool.noConfusion h
  | dequeue t rest hq hw =>
    unfold SysInv
    dsimp only
    refine ⟨?_, ?_, hwle, hopen100, hwr, ?_⟩
    · rw [ha]
      simp only [List.length_append, List.length_cons, List.length_nil]
      unfold maxU32
      omega
    · simp only [List.length_append, List.length_cons, List.length_nil]
      omega
    · intro _ h0
      omega
  | finish i hi =>
    have hlen : (s.inFlight.eraseIdx i).length = s.inFlight.length - 1 := by
      have h1 := List.length_eraseIdx_add_one hi
      omega
    unfold SysInv
    dsimp only
    refine ⟨?_, ?_, hwle, hopen100, hwr, hcq⟩
    · rw [hlen, ha]
      unfold maxU32
      omega
    · rw [hlen]
      omega
  | workerExit hclosed hq hidle =>
    unfold SysInv
    dsimp only
    refine ⟨ha, ?_, ?_, ?_, ?_, ?_⟩
    · omega
    · omega
    · intro h
      rw [h] at hclosed
      exact Bool.noConfusion hclosed
    · intro h
      exact absurd (hwr h).2 (by omega)
    · intro _ _
      exact hq
  | waitClose hopen =>
    unfold SysInv
    dsimp only
    refine ⟨ha, hif, hwle, ?_, ?_, ?_⟩
    · intro h
      exact Bool.noConfusion h
    · intro h
      rw [(hwr h).1] at hopen
      exact Bool.noConfusion hopen
    · intro _ h0
      have h1 := hopen100 hopen
      unfold poolWorkerCount at h1
      omega
  | waitReturn hclosed hw =>
    unfold SysInv
    dsimp only
    refine ⟨ha, hif, hwle, ?_, ?_, ?_⟩
    · intro h
      rw [h] at hclosed
      exact Bool.noConfusion hclosed
    · intro _
      exact ⟨hclosed, hw⟩
    · intro _ _
      exact hcq hclosed hw

lemma inv_reachable (handleChain : ToFix → List (List Cert) × Option FixError)
    {s : Sys} (hr : Reachable handleChain s) : SysInv s := by
  induction hr with
  | refl => exact inv_init
  | tail _ hstep ih => exact inv_step handleChain ih hstep

/-- C2: in any reachable state in which `Wait` has returned, the intake
queue is closed and drained, every worker has exited with no task still in
flight, and no further step can change what has been sent on the chains or
errors channels — every result that will ever be produced has been
emitted. -/
theorem wait_return_quiesces
    (handleChain : ToFix → List (List Cert) × Option FixError) (s : Sys)
    (hr : Reachable handleChain s) (hwait : s.waitReturned = true) :
    (s.workers = 0 ∧ s.queue = [] ∧ s.inFlight = []) ∧
    (∀ s', Step handleChain s s' →
      s'.chainsOut = s.chainsOut ∧ s'.errorsOut = s.errorsOut) := by
  obtain ⟨ha, hif, hwle, hopen100, hwr, hcq⟩ := inv_reachable handleChain hr
  have hcw := hwr hwait
  have hq : s.queue = [] := hcq hcw.1 hcw.2
  have hfl : s.inFlight = [] := by
    have h0 : s.inFlight.length = 0 := by omega
    exact List.length_eq_zero.mp h0
  refine ⟨⟨hcw.2, hq, hfl⟩, ?_⟩
  intro s' hstep
  cases hstep with
  | enqueue t hopen =>
    rw [hcw.1] at hopen
    exact Bool.noConfusion hopen
  | dequeue t rest hqe hw =>
    rw [hq] at hqe
    exact List.noConfusion hqe
  | finish i hi =>
    rw [hfl] at hi
    exact absurd hi (by simp)
  | workerExit hclosed hqe hidle =>
    exact absurd hidle (by omega)
  | waitClose hopen =>
    rw [hcw.1] at hopen
    exact Bool.noConfusion hopen
  | waitReturn hclosed hw =>
    exact ⟨rfl, rfl⟩

/-- C9: in every reachable state, the `active` counter (maintained by an
atomic add of `1` right after a dequeue and an atomic add of `^uint32(0)`
after the task's result has been pushed) equals the number of tasks
currently being handled, and it is `0` once `Wait` has returned. -/
theorem active_counts_in_flight
    (handleChain : ToFix → List (List Cert) × Option FixError) (s : Sys)
    (hr : Reachable handleChain s) :
    s.active = s.inFlight.length ∧ (s.waitReturned = true → s.active = 0) := by
  obtain ⟨ha, hif, hwle, hopen100, hwr, hcq⟩ := inv_reachable handleChain hr
  refine ⟨ha, ?_⟩
  intro hw
  have h0 := (hwr hw).2
  omega

/-- A trivial fix algorithm used to instantiate the trace model in
concrete runs. -/
def handleChainNone : ToFix → List (List Cert) × Option FixError :=
  fun _ => ([], none)

/-- The system state after `Wait` has closed the intake and `w` workers
are still to exit. -/
def sysAfterClose (w : Nat) : Sys :=
  { queue := [], closed := true, workers := w, inFlight := [], active := 0
    chainsOut := [], errorsOut := [], waitReturned := false }

/-- The system state after a full `NewFixer`/`Wait` lifecycle with no
tasks. -/
def sysDone : Sys :=
  { queue := [], closed := true, workers := 0, inFlight := [], active := 0
    chainsOut := [], errorsOut := [], waitReturned := true }

lemma reach_afterClose (k : Nat) (hk : k ≤ 100) :
    Reachable handleChainNone (sysAfterClose (100 - k)) := by
  induction k with
  | zero =>
    have h0 : ({ initSys with closed := true } : Sys) = sysAfterClose (100 - 0) := by
      simp [sysAfterClose, initSys, poolWorkerCount]
    rw [← h0]
    exact Relation.ReflTransGen.single (Step.waitClose initSys rfl)
  | succ k ih =>
    have hstep : Step handleChainNone (sysAfterClose (100 - k))
        { sysAfterClose (100 - k) with workers := (100 - k) - 1 } :=
      Step.workerExit (sysAfterClose (100 - k)) rfl rfl
        (by simp [sysAfterClose]; omega)
    have heq : ({ sysAfterClose (100 - k) with workers := (100 - k) - 1 } : Sys)
        = sysAfterClose (100 - (k + 1)) := by
      simp only [sysAfterClose]
      have h1 : 100 - k - 1 = 100 - (k + 1) := by omega
      rw [h1]
    rw [heq] at hstep
    exact Relation.ReflTransGen.tail (ih (by omega)) hstep

lemma reach_done : Reachable handleChainNone sysDone := by
  have h := reach_afterClose 100 (le_refl 100)
  have hstep : Step handleChainNone (sysAfterClose 0) sysDone :=
    Step.waitReturn (sysAfterClose 0) rfl rfl
  exact Relation.ReflTransGen.tail (by simpa using h) hstep

/-- Witness for C2 at the concrete state reached by close, 100 worker
exits, and the return of `Wait`. -/
theorem wait_return_quiesces_witness :
    sysDone.workers = 0 ∧ sysDone.queue = [] ∧ sysDone.inFlight = [] :=
  (wait_return_quiesces handleChainNone sysDone reach_done rfl).1

/-- Witness for C9 at the same concrete fully-shut-down state. -/
theorem active_counts_in_flight_witness :
    sysDone.active = sysDone.inFlight.length ∧ sysDone.active = 0 :=
  ⟨(active_counts_in_flight handleChainNone sysDone reach_done).1,
   (active_counts_in_flight handleChainNone sysDone reach_done).2 rfl⟩

/-- Modelled from the spec: the six statistics counters are plain
unsynchronized `uint` fields — the source notes "Counters may not be
entirely accurate due to non-atomicity" (fixer.go:19) — so an increment is
a load of the field followed by a store of the loaded value plus one.  Two
workers A and B each performing one increment interleave as a sequence of
these four events. -/
inductive IncrEvent where
  | loadA : IncrEvent
  | storeA : IncrEvent
  | loadB : IncrEvent
  | storeB : IncrEvent
deriving DecidableEq, Repr

/-- The shared counter value together with the two workers' loaded
registers. -/
structure CounterRun where
  counter : Nat
  regA : Nat
  regB : Nat
deriving DecidableEq, Repr

/-- One load or store event of a non-atomic counter increment. -/
def incrStep (s : CounterRun) : IncrEvent → CounterRun
  | IncrEvent.loadA => { s with regA := s.counter }
  | IncrEvent.storeA => { s with counter := s.regA + 1 }
  | IncrEvent.loadB => { s with regB := s.counter }
  | IncrEvent.storeB => { s with counter := s.regB + 1 }

/-- Run an interleaving of counter events from counter value `0`. -/
def runIncrs (evs : List IncrEvent) : CounterRun :=
  evs.foldl incrStep { counter := 0, regA := 0, regB := 0 }

/-- C7 counterexample: with both workers' increments racing (both load
before either stores), two increments of a counter leave it at `1`, not
`2` — a concurrent update is lost, so the counters are not updated with an
atomic or synchronized increment. -/
theorem counters_lost_update_counterexample :
    ¬ (runIncrs [IncrEvent.loadA, IncrEvent.loadB,
        IncrEvent.storeA, IncrEvent.storeB]).counter = 2 := by
  decide

/-- C7 amended: the six counters are plain non-atomic fields; when the two
increments run one after the other the counter reaches `2`, but the racing
interleaving loses one update and leaves it at `1`, exactly the drift the
source comment admits. -/
theorem counters_may_lose_updates :
    (runIncrs [IncrEvent.loadA, IncrEvent.storeA,
      IncrEvent.loadB, IncrEvent.storeB]).counter = 2 ∧
    (runIncrs [IncrEvent.loadA, IncrEvent.loadB,
      IncrEvent.storeA, IncrEvent.storeB]).counter = 1 := by
  decide

/-- The six counters and the active count exactly as read by the
`log.Printf` in `logStats` (fixer.go:85-89). -/
structure StatsView where
  active : Nat
  reconstructed : Nat
  notReconstructed : Nat
  fixed : Nat
  notFixed : Nat
  skipped : Nat
  alreadyDone : Nat
deriving DecidableEq, Repr

/-- The ticker interval of `logStats`: `time.NewTicker(time.Second)`. -/
def reportIntervalSeconds : Nat := 1

/-- State of the reporter goroutine started by `logStats`
(fixer.go:81-92): whether its ticker has been stopped, and the snapshots
logged so far. -/
structure Reporter where
  tickerStopped : Bool
  emitted : List StatsView
deriving DecidableEq, Repr

/-- `logStats` starts the ticker and the logging goroutine: the ticker is
running and nothing has been logged yet. -/
def logStatsStart : Reporter :=
  { tickerStopped := false, emitted := [] }

/-- One ticker tick (one report interval elapsing): the goroutine's
`for _ = range t.C` loop logs one snapshot of the counters; the loop body
has no exit path while the ticker runs. -/
def reporterTick (f : StatsView) (r : Reporter) : Reporter :=
  if r.tickerStopped then r else { r with emitted := r.emitted ++ [f] }

/-- The public operations of a `Fixer`. -/
inductive FixerOp where
  | queueChainOp : FixerOp
  | waitOp : FixerOp
deriving DecidableEq, Repr

/-- Effect of the public `Fixer` operations on the reporter: none.  The
ticker `t` is local to `logStats`, `t.Stop()` is never called, and neither
`QueueChain` nor `Wait` references the reporter goroutine. -/
def fixerOpOnReporter : FixerOp → Reporter → Reporter :=
  fun _ r => r

/-- A concrete counters view for the concrete reporter runs. -/
def sampleStats : StatsView :=
  { active := 0, reconstructed := 1, notReconstructed := 2, fixed := 3
    notFixed := 4, skipped := 5, alreadyDone := 6 }

/-- C8 counterexample: even after the orchestrator has performed its whole
public lifecycle — `QueueChain` and then `Wait`, the only operations it
offers — the reporter's ticker is still running and the reporter still
emits on every subsequent tick: no stop mechanism by which the
orchestrator can terminate it exists. -/
theorem reporter_unstoppable_counterexample :
    (fixerOpOnReporter FixerOp.waitOp
      (fixerOpOnReporter FixerOp.queueChainOp logStatsStart)).tickerStopped
        = false ∧
    (reporterTick sampleStats (reporterTick sampleStats
      (fixerOpOnReporter FixerOp.waitOp
        (fixerOpOnReporter FixerOp.queueChainOp logStatsStart)))).emitted
      = [sampleStats, sampleStats] := by
  decide

lemma reporterTick_iterate (f : StatsView) (n : Nat) (r : Reporter)
    (h : r.tickerStopped = false) :
    ((reporterTick f)^[n] r).emitted = r.emitted ++ List.replicate n f ∧
    ((reporterTick f)^[n] r).tickerStopped = false := by
  induction n generalizing r with
  | zero => simp [h]
  | succ n ih =>
    rw [Function.iterate_succ_apply]
    have hr : reporterTick f r = { r with emitted := r.emitted ++ [f] } := by
      unfold reporterTick
      rw [h]
      simp
    rw [hr]
    obtain ⟨h1, h2⟩ := ih { r with emitted := r.emitted ++ [f] } h
    refine ⟨?_, h2⟩
    rw [h1]
    simp [List.replicate_succ]

lemma foldl_fixerOps (ops : List FixerOp) (r : Reporter) :
    ops.foldl (fun r op => fixerOpOnReporter op r) r = r := by
  induction ops with
  | nil => rfl
  | cons op ops ih => simp [fixerOpOnReporter, ih]

/-- C8 amended: the reporter started at construction emits one snapshot of
the six aggregate counters and the active-worker count per ticker interval
(one second), and does so for the lifetime of the process: no `Fixer`
operation stops it — after any sequence of public operations and `n`
further ticks it has emitted exactly `n` snapshots and its ticker is still
running. -/
theorem reporter_emits_every_interval (f : StatsView) (n : Nat)
    (ops : List FixerOp) :
    reportIntervalSeconds = 1 ∧
    ((reporterTick f)^[n]
        (ops.foldl (fun r op => fixerOpOnReporter op r) logStatsStart)).emitted
      = List.replicate n f ∧
    ((reporterTick f)^[n]
        (ops.foldl (fun r op => fixerOpOnReporter op r) logStatsStart)).tickerStopped
      = false := by
  rw [foldl_fixerOps]
  obtain ⟨h1, h2⟩ := reporterTick_iterate f n logStatsStart rfl
  refine ⟨rfl, ?_, h2⟩
  rw [h1]
  rfl
